import Mathlib

/-
Verification of the typed registry persistence layer (reg_api).

Shallow embedding conventions:
* C++ std::string values are modeled as `List Nat`, one entry per byte
  (0 ≤ byte < 256); ASCII codes are used for text (48 = digit zero,
  46 = dot, 45 = minus, 95 = underscore, 61 = equals sign).
* The C++ `int` accumulators in the base64 routines wrap at 2^32
  (two's complement bit pattern viewed as an unsigned value); this is
  modeled by an explicit `% 4294967296`.  The code only ever extracts
  bits at positions below 16 via `>> s` followed by `& 0x3F` / `& 0xFF`
  with `s ≤ 9`, so the distinction between arithmetic and logical right
  shift is immaterial and `Nat` shifts are a faithful model.
* `double`/`float` values are modeled as exact rationals (ℚ); the
  stream formatting of a floating value with
  `std::fixed << std::setprecision(5)` correctly rounds the value to 5
  fractional digits with ties to even, modeled by `rhe5`.
* `std::istringstream` numeric extraction is modeled by explicit
  parsers (`parseHex64`, `parseDec32`, `parseInt32`, `parseRat`)
  following the standard num_get grammar: optional whitespace, optional
  sign, digits (with optional 0x marker in hex mode); extraction failure
  (no digits, or out-of-range value) is `none`, and the calling code
  maps `none` to its caller-supplied default exactly as `iss.fail()`
  does in the source.
* The Windows registry itself is an external collaborator; it is
  modeled by `RegState`, an association list of named values plus an
  open flag, with the OS-level query/set calls assumed to succeed on an
  open key (the contract of spec section 6).
-/

/-! ## Base64 codec (reg_api.cpp: b64, b64_d) -/

/-- The 64-character base64 alphabet of the source, as ASCII codes:
A-Z, a-z, 0-9, then 43 (plus) and 47 (slash). -/
def base64_chars : List Nat :=
  [65, 66, 67, 68, 69, 70, 71, 72, 73, 74, 75, 76, 77, 78, 79, 80,
   81, 82, 83, 84, 85, 86, 87, 88, 89, 90,
   97, 98, 99, 100, 101, 102, 103, 104, 105, 106, 107, 108, 109, 110,
   111, 112, 113, 114, 115, 116, 117, 118, 119, 120, 121, 122,
   48, 49, 50, 51, 52, 53, 54, 55, 56, 57, 43, 47]

/-- The decode table `T` of `b64_d`: `T[base64_chars[i]] = i`, all other
entries -1.  The alphabet has no repeated characters, so the table entry
is the first (unique) index of the character. -/
def b64T (c : Nat) : Int :=
  match base64_chars.findIdx? (fun x => x == c) with
  | some i => (i : Int)
  | none => -1

/-- The inner `while (valb >= 0)` emission loop of `b64`: with the
accumulator `val` fixed, emit `base64_chars[(val >> valb) & 0x3F]` and
decrease `valb` by 6 while it is nonnegative.  Returns the emitted
characters together with the final `valb`. -/
def b64_emit (val : Nat) (valb : Int) : List Nat × Int :=
  if 0 ≤ valb then
    let rest := b64_emit val (valb - 6)
    (base64_chars.getD ((val >>> valb.toNat) &&& 63) 0 :: rest.1, rest.2)
  else ([], valb)
termination_by (valb + 6).toNat
decreasing_by omega

/-- The main loop of `b64` followed by the final flush: for each input
byte, `val = (val << 8) + c; valb += 8;` then the emission loop; at the
end of input, if `valb > -6` one extra character
`base64_chars[((val << 8) >> (valb + 8)) & 0x3F]` is emitted. -/
def b64Go : List Nat → Nat → Int → List Nat
  | [], val, valb =>
    if valb > -6 then
      [base64_chars.getD (((val * 256 % 4294967296) >>> (valb + 8).toNat) &&& 63) 0]
    else []
  | c :: cs, val, valb =>
    let val' := (val * 256 + c) % 4294967296
    let e := b64_emit val' (valb + 8)
    e.1 ++ b64Go cs val' e.2

/-- `reg_api::b64`: run the encoding loop from `val = 0, valb = -6`,
then append the character 61 (equals sign) until the length is a
multiple of 4. -/
def b64 (s : List Nat) : List Nat :=
  let out := b64Go s 0 (-6)
  out ++ List.replicate ((4 - out.length % 4) % 4) 61

/-- The loop of `reg_api::b64_d`: stop at the first character whose
table entry is -1; otherwise `val = (val << 6) + T[c]; valb += 6;` and
emit the byte `(val >> valb) & 0xFF` whenever `valb ≥ 0` (then
`valb -= 8`). -/
def b64_d_go : List Nat → Nat → Int → List Nat
  | [], _, _ => []
  | c :: cs, val, valb =>
    if b64T c = -1 then []
    else
      let val' := (val * 64 + (b64T c).toNat) % 4294967296
      let valb' := valb + 6
      if 0 ≤ valb' then
        ((val' >>> valb'.toNat) &&& 255) :: b64_d_go cs val' (valb' - 8)
      else
        b64_d_go cs val' valb'

/-- `reg_api::b64_d`: run the decoding loop from `val = 0, valb = -8`. -/
def b64_d (s : List Nat) : List Nat := b64_d_go s 0 (-8)

/-! ## Character classes and digit strings (istream / ostream text model) -/

/-- Whitespace characters skipped by stream extraction:
space (32) and the control range 9-13. -/
def isWsChar (c : Nat) : Bool := c == 32 || (9 ≤ c && c ≤ 13)

/-- ASCII decimal digit. -/
def isDecDigit (c : Nat) : Bool := 48 ≤ c && c ≤ 57

/-- ASCII hexadecimal digit (0-9, a-f, A-F). -/
def isHexDigitChar (c : Nat) : Bool :=
  isDecDigit c || (97 ≤ c && c ≤ 102) || (65 ≤ c && c ≤ 70)

/-- The character rendering a digit value: 0-9 render as 48-57, 10-15
render as the lowercase letters 97-102 (std streams default to
lowercase hex). -/
def digitChar (d : Nat) : Nat := if d < 10 then 48 + d else 87 + d

/-- The numeric value of a digit character (0 for non-digits; parsers
only ever apply it to digit characters). -/
def charVal (c : Nat) : Nat :=
  if 48 ≤ c && c ≤ 57 then c - 48
  else if 97 ≤ c && c ≤ 102 then c - 87
  else if 65 ≤ c && c ≤ 70 then c - 55
  else 0

/-- The little-endian base-`b` digit values of `n`, computed with an
explicit fuel argument (`n` itself suffices) so that the definition
reduces inside the kernel; equal to `Nat.digits b n` (see
`natDigitsRev_eq_digits`). -/
def natDigitsRev : Nat → Nat → Nat → List Nat
  | 0, _, _ => []
  | fuel + 1, n, b => if n = 0 then [] else n % b :: natDigitsRev fuel (n / b) b

/-- Rendering of a natural number in base `b` (most significant digit
first), as the stream insertion operators produce it; 0 renders as the
single character 48. -/
def natRender (b n : Nat) : List Nat :=
  if n = 0 then [48] else ((natDigitsRev n n b).map digitChar).reverse

/-- The value accumulated by reading a digit string left to right in
base `b` (the standard strtol-style accumulation). -/
def digitsVal (b : Nat) (ds : List Nat) : Nat :=
  ds.foldl (fun a c => a * b + charVal c) 0

/-- Stream extraction sign handling: an optional leading 45 (minus) or
43 (plus); returns the sign flag and the remaining characters. -/
def splitSign (s : List Nat) : Bool × List Nat :=
  match s with
  | c :: r => if c = 45 then (true, r) else if c = 43 then (false, r) else (false, c :: r)
  | [] => (false, [])

/-- Hex-mode extraction accepts an optional `0x`/`0X` marker when it is
followed by a further digit. -/
def strip0x (isD : Nat → Bool) (s : List Nat) : List Nat :=
  match s with
  | c0 :: c1 :: d :: r =>
    if c0 = 48 ∧ (c1 = 120 ∨ c1 = 88) ∧ isD d then d :: r else c0 :: c1 :: d :: r
  | _ => s

/-- Unsigned stream extraction in base `base` with digit class `isD`
and maximal representable value `bound`: skip whitespace, read an
optional sign, (in hex mode an optional 0x marker), then the maximal
run of digits.  No digits or a value above `bound` sets the fail bit
(`none`); a minus sign wraps the value modulo `bound + 1` as num_get
does for unsigned targets. -/
def parseUnsigned (base : Nat) (isD : Nat → Bool) (bound : Nat) (hexMode : Bool)
    (s : List Nat) : Option Nat :=
  let s1 := s.dropWhile isWsChar
  let sg := splitSign s1
  let s3 := if hexMode then strip0x isD sg.2 else sg.2
  let ds := s3.takeWhile isD
  if ds = [] then none
  else
    let v := digitsVal base ds
    if bound < v then none
    else some (if sg.1 then (bound + 1 - v % (bound + 1)) % (bound + 1) else v)

/-- `std::istringstream >> std::hex >> (uintptr_t)`: hex extraction
into a 64-bit unsigned value. -/
def parseHex64 (s : List Nat) : Option Nat :=
  parseUnsigned 16 isHexDigitChar (2 ^ 64 - 1) true s

/-- `std::istringstream >> (DWORD)`: decimal extraction into a 32-bit
unsigned value. -/
def parseDec32 (s : List Nat) : Option Nat :=
  parseUnsigned 10 isDecDigit (2 ^ 32 - 1) false s

/-- `std::istringstream >> (int)`: decimal extraction into a 32-bit
signed value; out-of-range values set the fail bit. -/
def parseInt32 (s : List Nat) : Option Int :=
  let s1 := s.dropWhile isWsChar
  let sg := splitSign s1
  let ds := sg.2.takeWhile isDecDigit
  if ds = [] then none
  else
    let v : Int := (digitsVal 10 ds : Int)
    let v := if sg.1 then -v else v
    if v < -(2 ^ 31) ∨ 2 ^ 31 - 1 < v then none else some v

/-- The optional exponent of a floating-point literal (`e`/`E`, sign,
digits); applied to the mantissa value. -/
def applyExponent (v : ℚ) (r2 : List Nat) : Option ℚ :=
  let sg := splitSign r2
  let ds := sg.2.takeWhile isDecDigit
  if ds = [] then none
  else
    let e : Int := (digitsVal 10 ds : Int)
    some (v * (10 : ℚ) ^ (if sg.1 then -e else e))

/-- `std::istringstream >> (double)`, with the double modeled as an
exact rational: optional whitespace and sign, integer digits, optional
dot and fraction digits, optional exponent; fails when there is no
digit at all. -/
def parseRat (s : List Nat) : Option ℚ :=
  let s1 := s.dropWhile isWsChar
  let sg := splitSign s1
  let ip := sg.2.takeWhile isDecDigit
  let r1 := sg.2.dropWhile isDecDigit
  let fpr : List Nat × List Nat :=
    match r1 with
    | 46 :: r => (r.takeWhile isDecDigit, r.dropWhile isDecDigit)
    | _ => ([], r1)
  if ip = [] ∧ fpr.1 = [] then none
  else
    let mag : ℚ := (digitsVal 10 ip : ℚ) + (digitsVal 10 fpr.1 : ℚ) / (10 : ℚ) ^ fpr.1.length
    let withSign := if sg.1 then -mag else mag
    match fpr.2 with
    | 101 :: r2 => applyExponent withSign r2
    | 69 :: r2 => applyExponent withSign r2
    | _ => some withSign

/-! ## Numeric codec (reg_api.h: number_to_string, string_to_number) -/

/-- `reg_api::string_to_number<int>`: extract, and return the supplied
default when extraction failed (`iss.fail()`). -/
def string_to_number_int (str : List Nat) (default_val : Int) : Int :=
  match parseInt32 str with
  | none => default_val
  | some v => v

/-- `reg_api::string_to_number<double>` on the exact-rational model of
doubles. -/
def string_to_number_rat (str : List Nat) (default_val : ℚ) : ℚ :=
  match parseRat str with
  | none => default_val
  | some v => v

/-- Round a nonnegative rational to the nearest integer, ties to even —
what the stream formatting of a correctly rounded floating value does
at the last kept digit. -/
def rhe5 (q : ℚ) : Nat :=
  let n := q.num.toNat
  let d := q.den
  let i := n / d
  let r := n % d
  if 2 * r < d then i else if d < 2 * r then i + 1 else if i % 2 = 0 then i else i + 1

/-- The five fractional digits of `std::setprecision(5)` output,
zero-padded, for a fraction numerator `n < 100000`. -/
def frac5 (n : Nat) : List Nat :=
  [48 + n / 10000 % 10, 48 + n / 1000 % 10, 48 + n / 100 % 10, 48 + n / 10 % 10, 48 + n % 10]

/-- The trimming step of `number_to_string`: when the rendered string
contains a dot (46), drop everything after the last character that is
not 48 (`str.substr(0, str.find_last_not_of('0') + 1)` removes exactly
the maximal trailing run of zero characters), and then drop a trailing
dot.  Strings without a dot are returned unchanged. -/
def trim_zeros (s : List Nat) : List Nat :=
  if 46 ∈ s then
    let t := (s.reverse.dropWhile (fun c => c == 48)).reverse
    if t.getLast? = some 46 then t.dropLast else t
  else s

/-- `reg_api::number_to_string<int>`: `std::fixed` and
`std::setprecision` do not affect integer insertion, so the rendered
string is the plain decimal (with sign); the trimming step then leaves
it unchanged because it contains no dot. -/
def number_to_string_int (value : Int) : List Nat :=
  trim_zeros ((if value < 0 then [45] else []) ++ natRender 10 value.natAbs)

/-- `reg_api::number_to_string<double>` on the exact-rational model:
fixed-point rendering with exactly 5 fractional digits (sign, integer
part, dot, five digits), then the trimming step. -/
def number_to_string_rat (value : ℚ) : List Nat :=
  let N := rhe5 (|value| * 100000)
  trim_zeros ((if value < 0 then [45] else []) ++
    natRender 10 (N / 100000) ++ [46] ++ frac5 (N % 100000))

/-! ## Pointer token (reg_api.h: write_pointer, read_pointer) -/

/-- The token written by `write_pointer`: hexadecimal address,
underscore (95), decimal process id
(`oss << std::hex << ptr << "_" << std::dec << pid`). -/
def pointer_token (ptr current_pid : Nat) : List Nat :=
  natRender 16 ptr ++ [95] ++ natRender 10 current_pid

/-- The parsing part of `read_pointer`, operating on the string read
from the registry: empty string gives the default; otherwise split at
the first underscore (none present gives the default), parse the hex
address and the decimal process id (either failing gives the default),
and compare the stored process id with the current one (mismatch gives
the default); only a full match returns the stored address. -/
def read_pointer_s (str_value : List Nat) (current_pid default_value : Nat) : Nat :=
  if str_value = [] then default_value
  else
    match str_value.findIdx? (fun c => c == 95) with
    | none => default_value
    | some separator_pos =>
      let ptr_str := str_value.take separator_pos
      let pid_str := str_value.drop (separator_pos + 1)
      match parseHex64 ptr_str, parseDec32 pid_str with
      | some ptr_val, some stored_pid =>
        if current_pid ≠ stored_pid then default_value else ptr_val
      | some _, none => default_value
      | none, _ => default_value

/-! ## The store (registry key) and the typed operations over it -/

/-- The registry key as seen through an open `reg_api` instance: the
open flag and the named values of the key.  The OS-level query/set
primitives are assumed to succeed on an open key. -/
structure RegState where
  is_open : Bool
  vals : List (List Nat × List Nat)
deriving DecidableEq

/-- Association-list lookup of a value name (RegQueryValueEx). -/
def lookupVal : List (List Nat × List Nat) → List Nat → Option (List Nat)
  | [], _ => none
  | (k, v) :: rest, name => if k = name then some v else lookupVal rest name

/-- Association-list update of a value name (RegSetValueEx overwrites
or creates). -/
def setVal : List (List Nat × List Nat) → List Nat → List Nat → List (List Nat × List Nat)
  | [], name, value => [(name, value)]
  | (k, v) :: rest, name, value =>
    if k = name then (k, value) :: rest else (k, v) :: setVal rest name value

/-- `reg_api::value_exists`: false on a closed key, otherwise whether
the name is present. -/
def value_exists (st : RegState) (value_name : List Nat) : Bool :=
  st.is_open && (lookupVal st.vals value_name).isSome

/-- `reg_api::read_string`: the default on a closed key or an absent
name; otherwise the stored bytes up to the first 0 byte
(`std::string(buffer.data())` stops at the first NUL). -/
def read_string (st : RegState) (value_name default_value : List Nat) : List Nat :=
  if !st.is_open || !(value_exists st value_name) then default_value
  else ((lookupVal st.vals value_name).getD default_value).takeWhile (fun c => c != 0)

/-- `reg_api::write_string`: false on a closed key; otherwise store the
value and report success. -/
def write_string (st : RegState) (value_name value : List Nat) : Bool × RegState :=
  if !st.is_open then (false, st)
  else (true, ⟨st.is_open, setVal st.vals value_name value⟩)

/-- `reg_api::write_number<int>`: format and delegate to write_string. -/
def write_number_int (st : RegState) (value_name : List Nat) (value : Int) : Bool × RegState :=
  write_string st value_name (number_to_string_int value)

/-- `reg_api::read_number<int>`: read as string; empty (absent) gives
the default, otherwise convert with string_to_number. -/
def read_number_int (st : RegState) (value_name : List Nat) (default_value : Int) : Int :=
  let str_value := read_string st value_name []
  if str_value = [] then default_value
  else string_to_number_int str_value default_value

/-- `reg_api::write_pointer`: refuse (false) on a closed key or a null
pointer; otherwise write the pointer token. -/
def write_pointer (st : RegState) (value_name : List Nat) (ptr current_pid : Nat) :
    Bool × RegState :=
  if !st.is_open || ptr = 0 then (false, st)
  else write_string st value_name (pointer_token ptr current_pid)

/-- `reg_api::read_pointer`: read as string and parse the token. -/
def read_pointer (st : RegState) (value_name : List Nat) (current_pid default_value : Nat) :
    Nat :=
  read_pointer_s (read_string st value_name []) current_pid default_value

/-- The failure modes of `read_obj` (`std::runtime_error` with the two
messages of the source). -/
inductive ReadObjError where
  | NotFound
  | SizeMismatch
deriving DecidableEq

/-- The decoding part of `reg_api::read_obj<T>` on the string read from
the registry, with `size` standing for `sizeof(T)`: empty input throws
NotFound; a decoded byte length different from `size` throws
SizeMismatch; otherwise the decoded bytes are the returned record. -/
def read_obj_decode (encoded_string : List Nat) (size : Nat) :
    Except ReadObjError (List Nat) :=
  if encoded_string = [] then .error .NotFound
  else
    let obj_string := b64_d encoded_string
    if obj_string.length ≠ size then .error .SizeMismatch
    else .ok obj_string

/-- `reg_api::read_obj<T>`: read the encoded string and decode it. -/
def read_obj (st : RegState) (key : List Nat) (size : Nat) : Except ReadObjError (List Nat) :=
  read_obj_decode (read_string st key []) size

/-- `reg_api::write_obj<T>`: serialize (the record's bytes), base64
encode, write — and return nothing: the result of `write_string` is
discarded and the function's return type is void. -/
def write_obj (st : RegState) (key : List Nat) (obj_bytes : List Nat) : RegState :=
  (write_string st key (b64 obj_bytes)).2

/-! ## Base64 lemmas -/

lemma b64_emit_of_neg (val : Nat) {valb : Int} (h : valb < 0) : b64_emit val valb = ([], valb) := by
  rw [b64_emit.eq_def]
  simp [not_le.mpr h]

lemma b64_emit_of_nonneg (val : Nat) {valb : Int} (h : 0 ≤ valb) :
    b64_emit val valb =
      (base64_chars.getD ((val >>> valb.toNat) &&& 63) 0 :: (b64_emit val (valb - 6)).1,
       (b64_emit val (valb - 6)).2) := by
  rw [b64_emit.eq_def]
  simp [h]

lemma b64_emit_two (val : Nat) :
    b64_emit val 2 = ([base64_chars.getD ((val >>> 2) &&& 63) 0], -4) := by
  rw [b64_emit_of_nonneg val (by norm_num), b64_emit_of_neg val (by norm_num)]
  rfl

lemma b64_emit_four (val : Nat) :
    b64_emit val 4 = ([base64_chars.getD ((val >>> 4) &&& 63) 0], -2) := by
  rw [b64_emit_of_nonneg val (by norm_num), b64_emit_of_neg val (by norm_num)]
  rfl

lemma b64_emit_six (val : Nat) :
    b64_emit val 6 = ([base64_chars.getD ((val >>> 6) &&& 63) 0,
        base64_chars.getD (val &&& 63) 0], -6) := by
  rw [b64_emit_of_nonneg val (by norm_num), b64_emit_of_nonneg val (by norm_num),
    b64_emit_of_neg val (by norm_num)]
  rfl

lemma b64T_getD : ∀ t, t < 64 → b64T (base64_chars.getD t 0) = (t : Int) := by decide

lemma b64T_eq : b64T 61 = -1 := by decide

lemma and63 (n : Nat) : n &&& 63 = n % 64 := by
  have := Nat.and_pow_two_sub_one_eq_mod n 6
  norm_num at this
  exact this

lemma and255 (n : Nat) : n &&& 255 = n % 256 := by
  have := Nat.and_pow_two_sub_one_eq_mod n 8
  norm_num at this
  exact this

lemma extract6 (x s : Nat) : (x >>> s) &&& 63 = x / 2 ^ s % 64 := by
  rw [Nat.shiftRight_eq_div_pow, and63]

lemma extract8 (x s : Nat) : (x >>> s) &&& 255 = x / 2 ^ s % 256 := by
  rw [Nat.shiftRight_eq_div_pow, and255]

lemma b64_d_go_cons_valid (ch t : Nat) (cs : List Nat) (val : Nat) (valb : Int)
    (h : b64T ch = (t : Int)) :
    b64_d_go (ch :: cs) val valb =
      if 0 ≤ valb + 6 then
        ((((val * 64 + t) % 4294967296) >>> (valb + 6).toNat) &&& 255) ::
          b64_d_go cs ((val * 64 + t) % 4294967296) (valb + 6 - 8)
      else b64_d_go cs ((val * 64 + t) % 4294967296) (valb + 6) := by
  have hne : ¬(b64T ch = -1) := by rw [h]; omega
  have ht : (b64T ch).toNat = t := by rw [h]; exact Int.toNat_natCast t
  simp only [b64_d_go, if_neg hne, ht]

lemma d_step_m8 (ch t : Nat) (cs : List Nat) (val : Nat) (h : b64T ch = (t : Int)) :
    b64_d_go (ch :: cs) val (-8) = b64_d_go cs ((val * 64 + t) % 4294967296) (-2) := by
  rw [b64_d_go_cons_valid ch t cs val (-8) h]
  norm_num

lemma d_step_m2 (ch t : Nat) (cs : List Nat) (val : Nat) (h : b64T ch = (t : Int)) :
    b64_d_go (ch :: cs) val (-2) =
      (((val * 64 + t) % 4294967296) / 16 % 256) ::
        b64_d_go cs ((val * 64 + t) % 4294967296) (-4) := by
  rw [b64_d_go_cons_valid ch t cs val (-2) h]
  norm_num [extract8]
  rfl

lemma d_step_m4 (ch t : Nat) (cs : List Nat) (val : Nat) (h : b64T ch = (t : Int)) :
    b64_d_go (ch :: cs) val (-4) =
      (((val * 64 + t) % 4294967296) / 4 % 256) ::
        b64_d_go cs ((val * 64 + t) % 4294967296) (-6) := by
  rw [b64_d_go_cons_valid ch t cs val (-4) h]
  norm_num [extract8]
  rfl

lemma d_step_m6 (ch t : Nat) (cs : List Nat) (val : Nat) (h : b64T ch = (t : Int)) :
    b64_d_go (ch :: cs) val (-6) =
      (((val * 64 + t) % 4294967296) % 256) ::
        b64_d_go cs ((val * 64 + t) % 4294967296) (-8) := by
  rw [b64_d_go_cons_valid ch t cs val (-6) h]
  norm_num [and255]

lemma b64_d_go_stop (zs : List Nat) (val : Nat) (valb : Int) :
    b64_d_go (61 :: zs) val valb = [] := by
  simp [b64_d_go, b64T_eq]

lemma e_nil_m6 (eval : Nat) : b64Go [] eval (-6) = [] := by
  simp [b64Go]

lemma e_nil_m4 (eval : Nat) :
    b64Go [] eval (-4) = [base64_chars.getD ((eval * 256 % 4294967296) / 16 % 64) 0] := by
  simp only [b64Go]
  norm_num [extract6]
  rfl

lemma e_nil_m2 (eval : Nat) :
    b64Go [] eval (-2) = [base64_chars.getD ((eval * 256 % 4294967296) / 64 % 64) 0] := by
  simp only [b64Go]
  norm_num [extract6]
  rfl

lemma e_step_m6 (c : Nat) (cs : List Nat) (eval : Nat) :
    b64Go (c :: cs) eval (-6) =
      base64_chars.getD (((eval * 256 + c) % 4294967296) / 4 % 64) 0 ::
        b64Go cs ((eval * 256 + c) % 4294967296) (-4) := by
  show (b64_emit ((eval * 256 + c) % 4294967296) ((-6) + 8)).1 ++ _ = _
  norm_num [b64_emit_two, extract6]

lemma e_step_m4 (c : Nat) (cs : List Nat) (eval : Nat) :
    b64Go (c :: cs) eval (-4) =
      base64_chars.getD (((eval * 256 + c) % 4294967296) / 16 % 64) 0 ::
        b64Go cs ((eval * 256 + c) % 4294967296) (-2) := by
  show (b64_emit ((eval * 256 + c) % 4294967296) ((-4) + 8)).1 ++ _ = _
  norm_num [b64_emit_four, extract6]

lemma e_step_m2 (c : Nat) (cs : List Nat) (eval : Nat) :
    b64Go (c :: cs) eval (-2) =
      base64_chars.getD (((eval * 256 + c) % 4294967296) / 64 % 64) 0 ::
        base64_chars.getD (((eval * 256 + c) % 4294967296) % 64) 0 ::
        b64Go cs ((eval * 256 + c) % 4294967296) (-6) := by
  show (b64_emit ((eval * 256 + c) % 4294967296) ((-2) + 8)).1 ++ _ = _
  norm_num [b64_emit_six]
  simp only [Nat.shiftRight_eq_div_pow, and63]
  norm_num

lemma d_tail_empty (rest : List Nat) (hrest : rest = [] ∨ ∃ zs, rest = 61 :: zs)
    (val : Nat) (valb : Int) : b64_d_go rest val valb = [] := by
  rcases hrest with h | ⟨zs, h⟩ <;> subst h
  · rfl
  · exact b64_d_go_stop zs val valb

theorem b64_round_aux : ∀ (bs : List Nat), (∀ x ∈ bs, x < 256) → ∀ eval dval rest,
    (rest = [] ∨ ∃ zs, rest = 61 :: zs) →
    b64_d_go (b64Go bs eval (-6) ++ rest) dval (-8) = bs
  | [], _, eval, dval, rest, hrest => by
    rw [e_nil_m6, List.nil_append]
    exact d_tail_empty rest hrest dval (-8)
  | [a], h, eval, dval, rest, hrest => by
    have ha : a < 256 := h a (by simp)
    have hv1 : ∀ x : Nat, x / 4 % 64 < 64 := fun x => Nat.mod_lt _ (by norm_num)
    have hvF : ∀ x : Nat, x / 16 % 64 < 64 := fun x => Nat.mod_lt _ (by norm_num)
    rw [e_step_m6, e_nil_m4, List.cons_append, List.cons_append, List.nil_append,
      d_step_m8 _ _ _ _ (b64T_getD _ (hv1 _)), d_step_m2 _ _ _ _ (b64T_getD _ (hvF _))]
    have hbyte :
        ((dval * 64 + (eval * 256 + a) % 4294967296 / 4 % 64) % 4294967296 * 64 +
            ((eval * 256 + a) % 4294967296 * 256 % 4294967296) / 16 % 64) % 4294967296
          / 16 % 256 = a := by
      omega
    rw [hbyte]
    simp only [List.cons.injEq, true_and]
    exact d_tail_empty rest hrest _ _
  | [a, b] , h, eval, dval, rest, hrest => by
    have ha : a < 256 := h a (by simp)
    have hb : b < 256 := h b (by simp)
    have hv1 : ∀ x : Nat, x / 4 % 64 < 64 := fun x => Nat.mod_lt _ (by norm_num)
    have hv2 : ∀ x : Nat, x / 16 % 64 < 64 := fun x => Nat.mod_lt _ (by norm_num)
    have hvF : ∀ x : Nat, x / 64 % 64 < 64 := fun x => Nat.mod_lt _ (by norm_num)
    rw [e_step_m6, e_step_m4, e_nil_m2, List.cons_append, List.cons_append,
      List.cons_append, List.nil_append,
      d_step_m8 _ _ _ _ (b64T_getD _ (hv1 _)), d_step_m2 _ _ _ _ (b64T_getD _ (hv2 _)),
      d_step_m4 _ _ _ _ (b64T_getD _ (hvF _))]
    have hb1 :
        ((dval * 64 + (eval * 256 + a) % 4294967296 / 4 % 64) % 4294967296 * 64 +
            ((eval * 256 + a) % 4294967296 * 256 + b) % 4294967296 / 16 % 64) % 4294967296
          / 16 % 256 = a := by
      omega
    have hb2 :
        (((dval * 64 + (eval * 256 + a) % 4294967296 / 4 % 64) % 4294967296 * 64 +
              ((eval * 256 + a) % 4294967296 * 256 + b) % 4294967296 / 16 % 64) % 4294967296 * 64 +
            (((eval * 256 + a) % 4294967296 * 256 + b) % 4294967296 * 256 % 4294967296) / 64 % 64)
          % 4294967296 / 4 % 256 = b := by
      omega
    rw [hb1, hb2]
    simp only [List.cons.injEq, true_and]
    exact d_tail_empty rest hrest _ _
  | a :: b :: c :: rest', h, eval, dval, rest, hrest => by
    have ha : a < 256 := h a (by simp)
    have hb : b < 256 := h b (by simp)
    have hc : c < 256 := h c (by simp)
    have hv1 : ∀ x : Nat, x / 4 % 64 < 64 := fun x => Nat.mod_lt _ (by norm_num)
    have hv2 : ∀ x : Nat, x / 16 % 64 < 64 := fun x => Nat.mod_lt _ (by norm_num)
    have hv3 : ∀ x : Nat, x / 64 % 64 < 64 := fun x => Nat.mod_lt _ (by norm_num)
    have hv4 : ∀ x : Nat, x % 64 < 64 := fun x => Nat.mod_lt _ (by norm_num)
    rw [e_step_m6, e_step_m4, e_step_m2, List.cons_append, List.cons_append,
      List.cons_append, List.cons_append,
      d_step_m8 _ _ _ _ (b64T_getD _ (hv1 _)), d_step_m2 _ _ _ _ (b64T_getD _ (hv2 _)),
      d_step_m4 _ _ _ _ (b64T_getD _ (hv3 _)), d_step_m6 _ _ _ _ (b64T_getD _ (hv4 _))]
    have hb1 :
        ((dval * 64 + (eval * 256 + a) % 4294967296 / 4 % 64) % 4294967296 * 64 +
            ((eval * 256 + a) % 4294967296 * 256 + b) % 4294967296 / 16 % 64) % 4294967296
          / 16 % 256 = a := by
      omega
    have hb2 :
        (((dval * 64 + (eval * 256 + a) % 4294967296 / 4 % 64) % 4294967296 * 64 +
              ((eval * 256 + a) % 4294967296 * 256 + b) % 4294967296 / 16 % 64) % 4294967296 * 64 +
            (((eval * 256 + a) % 4294967296 * 256 + b) % 4294967296 * 256 + c) % 4294967296
              / 64 % 64) % 4294967296 / 4 % 256 = b := by
      omega
    have hb3 :
        ((((dval * 64 + (eval * 256 + a) % 4294967296 / 4 % 64) % 4294967296 * 64 +
              ((eval * 256 + a) % 4294967296 * 256 + b) % 4294967296 / 16 % 64) % 4294967296 * 64 +
            (((eval * 256 + a) % 4294967296 * 256 + b) % 4294967296 * 256 + c) % 4294967296
              / 64 % 64) % 4294967296 * 64 +
            (((eval * 256 + a) % 4294967296 * 256 + b) % 4294967296 * 256 + c) % 4294967296 % 64)
          % 4294967296 % 256 = c := by
      omega
    rw [hb1, hb2, hb3]
    simp only [List.cons.injEq, true_and]
    exact b64_round_aux rest' (fun x hx => h x (by simp [hx])) _ _ rest hrest

lemma b64_d_go_takeWhile : ∀ (s : List Nat) (val : Nat) (valb : Int),
    b64_d_go s val valb = b64_d_go (s.takeWhile fun c => !(b64T c == -1)) val valb
  | [], _, _ => rfl
  | c :: cs, val, valb => by
    by_cases hT : b64T c = -1
    · simp [b64_d_go, hT, List.takeWhile_cons]
    · have hbe : (!(b64T c == -1)) = true := by simp [hT]
      rw [List.takeWhile_cons, hbe]
      show b64_d_go (c :: cs) val valb =
        b64_d_go (c :: cs.takeWhile fun c => !(b64T c == -1)) val valb
      simp only [b64_d_go, if_neg hT]
      by_cases hv : (0 : Int) ≤ valb + 6
      · rw [if_pos hv, if_pos hv, b64_d_go_takeWhile cs]
      · rw [if_neg hv, if_neg hv, b64_d_go_takeWhile cs]

/-! ## Digit-string lemmas -/

lemma dropWhile_of_all_neg {p : Nat → Bool} : ∀ {l : List Nat}, (∀ c ∈ l, p c = false) →
    l.dropWhile p = l
  | [], _ => rfl
  | c :: cs, h => by
    rw [List.dropWhile_cons, h c (by simp)]
    simp

lemma takeWhile_of_all_pos {p : Nat → Bool} {l : List Nat} (h : ∀ c ∈ l, p c = true) :
    l.takeWhile p = l := List.takeWhile_eq_self_iff.mpr h

lemma findIdx?_append_cons {p : Nat → Bool} {xs : List Nat} {y : Nat} (ys : List Nat)
    (hxs : ∀ x ∈ xs, p x = false) (hy : p y = true) :
    List.findIdx? p (xs ++ y :: ys) = some xs.length := by
  have key : ∀ (zs : List Nat), (∀ x ∈ zs, p x = false) → ∀ i,
      List.findIdx? p (zs ++ y :: ys) i = some (zs.length + i) := by
    intro zs
    induction zs with
    | nil => intro _ i; simp [List.findIdx?_cons, hy]
    | cons a as ih =>
      intro h i
      rw [List.cons_append, List.findIdx?_cons, h a (by simp)]
      rw [ih (fun x hx => h x (by simp [hx])) (i + 1)]
      simp only [List.length_cons, Option.some.injEq, Bool.false_eq_true, if_false]
      omega
  have := key xs hxs 0
  simpa using this

lemma charVal_digitChar : ∀ d, d < 16 → charVal (digitChar d) = d := by decide

lemma isHex_digitChar : ∀ d, d < 16 → isHexDigitChar (digitChar d) = true := by decide

lemma isDec_digitChar : ∀ d, d < 10 → isDecDigit (digitChar d) = true := by decide

lemma hexChar_range {c : Nat} (h : isHexDigitChar c = true) :
    (48 ≤ c ∧ c ≤ 57) ∨ (97 ≤ c ∧ c ≤ 102) ∨ (65 ≤ c ∧ c ≤ 70) := by
  simp [isHexDigitChar, isDecDigit] at h
  omega

lemma decChar_range {c : Nat} (h : isDecDigit c = true) : 48 ≤ c ∧ c ≤ 57 := by
  simp [isDecDigit] at h
  omega

lemma decDigit_isHex {c : Nat} (h : isDecDigit c = true) : isHexDigitChar c = true := by
  simp [isHexDigitChar, h]

lemma hexChar_not_ws {c : Nat} (h : isHexDigitChar c = true) : isWsChar c = false := by
  rcases hexChar_range h with h1 | h1 | h1 <;> · simp [isWsChar]; omega

lemma hexChar_ne_sign {c : Nat} (h : isHexDigitChar c = true) : c ≠ 45 ∧ c ≠ 43 := by
  rcases hexChar_range h with h1 | h1 | h1 <;> omega

lemma hexChar_ne_special {c : Nat} (h : isHexDigitChar c = true) :
    c ≠ 95 ∧ c ≠ 46 ∧ c ≠ 61 ∧ c ≠ 0 := by
  rcases hexChar_range h with h1 | h1 | h1 <;> omega

lemma natDigitsRev_eq_digits {b : Nat} (hb : 1 < b) :
    ∀ (fuel n : Nat), n ≤ fuel → natDigitsRev fuel n b = Nat.digits b n
  | fuel, 0, _ => by cases fuel <;> simp [natDigitsRev]
  | 0, n + 1, h => absurd h (by omega)
  | fuel + 1, n + 1, h => by
    simp only [natDigitsRev, if_neg (Nat.succ_ne_zero n)]
    rw [Nat.digits_def' hb (Nat.succ_pos n)]
    congr 1
    exact natDigitsRev_eq_digits hb fuel ((n + 1) / b)
      (by
        have := Nat.div_lt_self (show 0 < n + 1 by omega) hb
        omega)

lemma natRender_eq_digits {b : Nat} (hb : 1 < b) (n : Nat) :
    natRender b n = if n = 0 then [48] else ((Nat.digits b n).map digitChar).reverse := by
  unfold natRender
  by_cases hn : n = 0
  · simp [hn]
  · rw [if_neg hn, if_neg hn, natDigitsRev_eq_digits hb n n le_rfl]

lemma natRender_ne_nil (b n : Nat) : natRender b n ≠ [] := by
  unfold natRender
  split
  · simp
  · next hn =>
    rcases n with _ | m
    · exact absurd rfl hn
    · simp [natDigitsRev, hn]

lemma natRender_all_digits {b n : Nat} (hb : 1 < b) (hble : b ≤ 16) :
    ∀ c ∈ natRender b n, ∃ d, d < b ∧ c = digitChar d := by
  intro c hc
  rw [natRender_eq_digits hb] at hc
  split at hc
  · refine ⟨0, by omega, ?_⟩
    simp at hc
    simp [hc, digitChar]
  · rw [List.mem_reverse, List.mem_map] at hc
    obtain ⟨d, hd, rfl⟩ := hc
    exact ⟨d, Nat.digits_lt_base hb hd, rfl⟩

lemma natRender_all_hex {n : Nat} : ∀ c ∈ natRender 16 n, isHexDigitChar c = true := by
  intro c hc
  obtain ⟨d, hd, rfl⟩ := natRender_all_digits (by norm_num) (by norm_num) c hc
  exact isHex_digitChar d (by omega)

lemma natRender_all_dec {n : Nat} : ∀ c ∈ natRender 10 n, isDecDigit c = true := by
  intro c hc
  obtain ⟨d, hd, rfl⟩ := natRender_all_digits (by norm_num) (by norm_num) c hc
  exact isDec_digitChar d (by omega)

lemma natRender_head_ne48 {b n : Nat} (hb : 1 < b) (hn : n ≠ 0) {c : Nat} {cs : List Nat}
    (h : natRender b n = c :: cs) : c ≠ 48 := by
  have hd : (natRender b n).head? = some c := by rw [h]; rfl
  rw [natRender_eq_digits hb] at hd
  rw [if_neg hn, List.head?_reverse, List.getLast?_map] at hd
  have hnil : Nat.digits b n ≠ [] := Nat.digits_ne_nil_iff_ne_zero.mpr hn
  rw [List.getLast?_eq_getLast _ hnil] at hd
  have hlast : (Nat.digits b n).getLast hnil ≠ 0 := Nat.getLast_digit_ne_zero b hn
  simp only [Option.map_some', Option.some.injEq] at hd
  subst hd
  unfold digitChar
  split <;> omega

lemma foldl_mul_add (b : Nat) : ∀ (L : List Nat) (x : Nat),
    L.foldl (fun a d => a * b + d) x = x * b ^ L.length + Nat.ofDigits b L.reverse
  | [], x => by simp
  | d :: ds, x => by
    rw [List.foldl_cons, foldl_mul_add b ds (x * b + d)]
    rw [List.reverse_cons, Nat.ofDigits_append]
    simp only [List.length_cons, List.length_reverse, Nat.ofDigits_singleton]
    ring

lemma digitsVal_natRender {b n : Nat} (hb : 1 < b) (hble : b ≤ 16) :
    digitsVal b (natRender b n) = n := by
  rw [natRender_eq_digits hb]
  unfold digitsVal
  split
  · next hn => subst hn; simp [charVal]
  · rw [← List.map_reverse]
    rw [List.foldl_map]
    have hext : ∀ (a : Nat), ∀ d ∈ (Nat.digits b n).reverse,
        a * b + charVal (digitChar d) = a * b + d := by
      intro a d hd
      rw [List.mem_reverse] at hd
      rw [charVal_digitChar d (by have := Nat.digits_lt_base hb hd; omega)]
    have hfold : List.foldl (fun x y => x * b + charVal (digitChar y)) 0 (Nat.digits b n).reverse
        = List.foldl (fun x y => x * b + y) 0 (Nat.digits b n).reverse :=
      List.foldl_ext _ _ 0 hext
    rw [hfold, foldl_mul_add b ((Nat.digits b n).reverse) 0]
    simp [Nat.ofDigits_digits]

lemma splitSign_of_digits {s : List Nat} (h : ∀ c ∈ s, isHexDigitChar c = true) :
    splitSign s = (false, s) := by
  cases s with
  | nil => rfl
  | cons c cs =>
    have := hexChar_ne_sign (h c (by simp))
    simp [splitSign, this.1, this.2]

lemma strip0x_of_head (isD : Nat → Bool) (c : Nat) (cs : List Nat) (hc : c ≠ 48) :
    strip0x isD (c :: cs) = c :: cs := by
  cases cs with
  | nil => rfl
  | cons c1 cs' =>
    cases cs' with
    | nil => rfl
    | cons d r => simp [strip0x, hc]

lemma strip0x_single (isD : Nat → Bool) (c : Nat) : strip0x isD [c] = [c] := rfl

lemma parseHex64_natRender {n : Nat} (h : n < 2 ^ 64) : parseHex64 (natRender 16 n) = some n := by
  by_cases hn : n = 0
  · subst hn; decide
  · have hall := natRender_all_hex (n := n)
    have hws : (natRender 16 n).dropWhile isWsChar = natRender 16 n :=
      dropWhile_of_all_neg (fun c hc => hexChar_not_ws (hall c hc))
    have hsg : splitSign (natRender 16 n) = (false, natRender 16 n) := splitSign_of_digits hall
    have hstrip : strip0x isHexDigitChar (natRender 16 n) = natRender 16 n := by
      rcases hr : natRender 16 n with _ | ⟨c, cs⟩
      · exact absurd hr (natRender_ne_nil 16 n)
      · exact strip0x_of_head _ c cs (natRender_head_ne48 (by norm_num) hn hr)
    have htake : (natRender 16 n).takeWhile isHexDigitChar = natRender 16 n :=
      takeWhile_of_all_pos hall
    simp only [parseHex64, parseUnsigned, hws, hsg, if_true, hstrip, htake]
    rw [if_neg (natRender_ne_nil 16 n)]
    rw [digitsVal_natRender (by norm_num) (by norm_num)]
    rw [if_neg (show ¬(2 ^ 64 - 1 < n) by omega)]
    simp

lemma parseDec32_natRender {n : Nat} (h : n < 2 ^ 32) : parseDec32 (natRender 10 n) = some n := by
  have hall := natRender_all_dec (n := n)
  have hallx : ∀ c ∈ natRender 10 n, isHexDigitChar c = true :=
    fun c hc => decDigit_isHex (hall c hc)
  have hws : (natRender 10 n).dropWhile isWsChar = natRender 10 n :=
    dropWhile_of_all_neg (fun c hc => hexChar_not_ws (hallx c hc))
  have hsg : splitSign (natRender 10 n) = (false, natRender 10 n) := splitSign_of_digits hallx
  have htake : (natRender 10 n).takeWhile isDecDigit = natRender 10 n :=
    takeWhile_of_all_pos hall
  simp only [parseDec32, parseUnsigned, hws, hsg, Bool.false_eq_true, if_false, htake]
  rw [if_neg (natRender_ne_nil 10 n)]
  rw [digitsVal_natRender (by norm_num) (by norm_num)]
  rw [if_neg (show ¬(2 ^ 32 - 1 < n) by omega)]

lemma trim_zeros_no_dot {s : List Nat} (h : 46 ∉ s) : trim_zeros s = s := by
  simp [trim_zeros, h]

lemma no_dot_int_render (v : Int) :
    46 ∉ (if v < 0 then [45] else []) ++ natRender 10 v.natAbs := by
  intro hmem
  rw [List.mem_append] at hmem
  rcases hmem with hmem | hmem
  · split at hmem <;> simp at hmem
  · have := decChar_range (natRender_all_dec 46 hmem)
    omega

lemma number_to_string_int_eq (v : Int) :
    number_to_string_int v = (if v < 0 then [45] else []) ++ natRender 10 v.natAbs :=
  trim_zeros_no_dot (no_dot_int_render v)

lemma parseInt32_render (v : Int) (h1 : -(2 ^ 31) ≤ v) (h2 : v ≤ 2 ^ 31 - 1) :
    parseInt32 ((if v < 0 then [45] else []) ++ natRender 10 v.natAbs) = some v := by
  have hall := natRender_all_dec (n := v.natAbs)
  have hallx : ∀ c ∈ natRender 10 v.natAbs, isHexDigitChar c = true :=
    fun c hc => decDigit_isHex (hall c hc)
  have htake : (natRender 10 v.natAbs).takeWhile isDecDigit = natRender 10 v.natAbs :=
    takeWhile_of_all_pos hall
  by_cases hv : v < 0
  · rw [if_pos hv]
    have hcons : ([45] ++ natRender 10 v.natAbs) = 45 :: natRender 10 v.natAbs := rfl
    rw [hcons]
    have hws : (45 :: natRender 10 v.natAbs).dropWhile isWsChar = 45 :: natRender 10 v.natAbs := by
      rw [List.dropWhile_cons]
      norm_num [isWsChar]
    have hsg : splitSign (45 :: natRender 10 v.natAbs) = (true, natRender 10 v.natAbs) := by
      simp [splitSign]
    simp only [parseInt32, hws, hsg, htake]
    rw [if_neg (natRender_ne_nil 10 v.natAbs)]
    rw [digitsVal_natRender (by norm_num) (by norm_num)]
    have habs : (v.natAbs : Int) = -v := by omega
    simp only [if_true, habs]
    rw [if_neg (show ¬(- -v < -(2 ^ 31) ∨ 2 ^ 31 - 1 < - -v) by omega)]
    norm_num
  · rw [if_neg hv, List.nil_append]
    have hws : (natRender 10 v.natAbs).dropWhile isWsChar = natRender 10 v.natAbs :=
      dropWhile_of_all_neg (fun c hc => hexChar_not_ws (hallx c hc))
    have hsg : splitSign (natRender 10 v.natAbs) = (false, natRender 10 v.natAbs) :=
      splitSign_of_digits hallx
    simp only [parseInt32, hws, hsg, htake]
    rw [if_neg (natRender_ne_nil 10 v.natAbs)]
    rw [digitsVal_natRender (by norm_num) (by norm_num)]
    have habs : (v.natAbs : Int) = v := by omega
    rw [if_neg (show ¬false = true by simp), habs]
    rw [if_neg (show ¬(v < -(2 ^ 31) ∨ 2 ^ 31 - 1 < v) by omega)]

/-! ## Pointer token lemmas -/

lemma token_roundtrip (A P dflt : Nat) (hA : A < 2 ^ 64) (hP : P < 2 ^ 32) :
    read_pointer_s (pointer_token A P) P dflt = A := by
  unfold pointer_token read_pointer_s
  have hhex := natRender_all_hex (n := A)
  rcases hr : natRender 16 A with _ | ⟨c, cs⟩
  · exact absurd hr (natRender_ne_nil 16 A)
  rw [← hr]
  have hne : natRender 16 A ++ [95] ++ natRender 10 P ≠ [] := by
    rw [hr]; simp
  rw [if_neg hne]
  have hfind : List.findIdx? (fun c => c == 95) (natRender 16 A ++ [95] ++ natRender 10 P) =
      some (natRender 16 A).length := by
    rw [List.append_assoc, List.cons_append, List.nil_append]
    exact findIdx?_append_cons _
      (fun x hx => by
        have := (hexChar_ne_special (hhex x hx)).1
        simp [this])
      (by simp)
  have htac : (natRender 16 A ++ [95] ++ natRender 10 P).take (natRender 16 A).length =
      natRender 16 A := by
    rw [List.append_assoc]
    exact List.take_left _ _
  have hdr : (natRender 16 A ++ [95] ++ natRender 10 P).drop ((natRender 16 A).length + 1) =
      natRender 10 P := by
    have hlen : (natRender 16 A).length + 1 = (natRender 16 A ++ [95]).length := by
      simp
    rw [hlen]
    exact List.drop_left _ _
  simp only [hfind, htac, hdr, parseHex64_natRender hA, parseDec32_natRender hP]
  rw [if_neg (show ¬(P ≠ P) by simp)]

/-! ## Fixed-point rendering lemmas -/

/-- The result of removing the maximal run of trailing 48 (zero digit)
characters, as the source's `substr(0, find_last_not_of('0') + 1)`
computes it. -/
def rstripZeros (s : List Nat) : List Nat :=
  (s.reverse.dropWhile (fun c => c == 48)).reverse

lemma charVal_48 : ∀ x, x ≤ 9 → charVal (48 + x) = x := by decide

lemma frac5_all_dec (n : Nat) : ∀ c ∈ frac5 n, isDecDigit c = true := by
  intro c hc
  simp only [frac5, List.mem_cons, List.not_mem_nil, or_false] at hc
  have h1 : n / 10000 % 10 ≤ 9 := by omega
  have h2 : n / 1000 % 10 ≤ 9 := by omega
  have h3 : n / 100 % 10 ≤ 9 := by omega
  have h4 : n / 10 % 10 ≤ 9 := by omega
  have h5 : n % 10 ≤ 9 := by omega
  rcases hc with rfl | rfl | rfl | rfl | rfl <;> · simp [isDecDigit]; omega

lemma digitsVal_frac5 {n : Nat} (h : n < 100000) : digitsVal 10 (frac5 n) = n := by
  have h1 : n / 10000 % 10 ≤ 9 := by omega
  have h2 : n / 1000 % 10 ≤ 9 := by omega
  have h3 : n / 100 % 10 ≤ 9 := by omega
  have h4 : n / 10 % 10 ≤ 9 := by omega
  have h5 : n % 10 ≤ 9 := by omega
  simp only [digitsVal, frac5, List.foldl_cons, List.foldl_nil,
    charVal_48 _ h1, charVal_48 _ h2, charVal_48 _ h3, charVal_48 _ h4, charVal_48 _ h5]
  omega

lemma digitsVal_all48 : ∀ {ds : List Nat}, (∀ c ∈ ds, c = 48) → digitsVal 10 ds = 0 := by
  have key : ∀ (ds : List Nat), (∀ c ∈ ds, c = 48) →
      ds.foldl (fun a c => a * 10 + charVal c) 0 = 0 := by
    intro ds
    induction ds with
    | nil => intro _; rfl
    | cons c cs ih =>
      intro h
      have hc : c = 48 := h c (by simp)
      subst hc
      simp only [List.foldl_cons]
      have : (0 : Nat) * 10 + charVal 48 = 0 := by decide
      rw [this]
      exact ih (fun x hx => h x (by simp [hx]))
  exact fun {ds} h => key ds h

lemma rstrip_decomp (f : List Nat) :
    f = rstripZeros f ++ List.replicate (f.length - (rstripZeros f).length) 48 := by
  unfold rstripZeros
  conv_lhs => rw [← List.reverse_reverse f,
    ← List.takeWhile_append_dropWhile (fun c => c == 48) f.reverse]
  rw [List.reverse_append]
  congr 1
  have hall : ∀ b ∈ f.reverse.takeWhile (fun c => c == 48), b = 48 := by
    intro b hb
    have := List.mem_takeWhile_imp hb
    simpa using this
  rw [List.eq_replicate_of_mem hall, List.reverse_replicate]
  congr 1
  have hlen := congrArg List.length (List.takeWhile_append_dropWhile (fun c => c == 48) f.reverse)
  simp only [List.length_append, List.length_reverse] at hlen ⊢
  omega

lemma rstrip_all48 {f : List Nat} (h : rstripZeros f = []) : ∀ c ∈ f, c = 48 := by
  intro c hc
  unfold rstripZeros at h
  have hnil : f.reverse.dropWhile (fun c => c == 48) = [] := by
    have := congrArg List.reverse h
    simpa using this
  have := List.dropWhile_eq_nil_iff.mp hnil c (by simp [hc])
  simpa using this

lemma rstrip_sublist {f : List Nat} : ∀ c ∈ rstripZeros f, c ∈ f := by
  intro c hc
  unfold rstripZeros at hc
  rw [List.mem_reverse] at hc
  have := List.dropWhile_sublist (l := f.reverse) (p := fun c => c == 48)
  have hmem := this.mem hc
  simpa using hmem

lemma rstrip_last_ne48 {f : List Nat} {c : Nat} (h : (rstripZeros f).getLast? = some c) :
    c ≠ 48 := by
  unfold rstripZeros at h
  rw [← List.head?_reverse, List.reverse_reverse] at h
  rcases hd : f.reverse.dropWhile (fun c => c == 48) with _ | ⟨x, xs⟩
  · rw [hd] at h; simp at h
  · rw [hd] at h
    simp only [List.head?_cons, Option.some.injEq] at h
    subst h
    have := List.head?_dropWhile_not (p := fun c => c == 48) (l := f.reverse)
    rw [hd] at this
    simpa using this

lemma trim_zeros_render (sgn ip f : List Nat)
    (hf : ∀ c ∈ f, isDecDigit c = true) :
    trim_zeros (sgn ++ ip ++ [46] ++ f) =
      if rstripZeros f = [] then sgn ++ ip else sgn ++ ip ++ 46 :: rstripZeros f := by
  have hmem : 46 ∈ sgn ++ ip ++ [46] ++ f := by simp
  have hbody : trim_zeros (sgn ++ ip ++ [46] ++ f) =
      (let t := rstripZeros (sgn ++ ip ++ [46] ++ f);
       if t.getLast? = some 46 then t.dropLast else t) := by
    unfold trim_zeros rstripZeros
    rw [if_pos hmem]
  rw [hbody]
  have hrev : (sgn ++ ip ++ [46] ++ f).reverse =
      f.reverse ++ 46 :: (ip.reverse ++ sgn.reverse) := by
    simp [List.reverse_append]
  by_cases hempty : rstripZeros f = []
  · have hdnil : f.reverse.dropWhile (fun c => c == 48) = [] := by
      have := congrArg List.reverse hempty
      simpa [rstripZeros] using this
    have hstr : rstripZeros (sgn ++ ip ++ [46] ++ f) = sgn ++ ip ++ [46] := by
      unfold rstripZeros
      rw [hrev, List.dropWhile_append, hdnil]
      simp [List.dropWhile_cons]
    simp only [hstr, if_pos hempty]
    rw [if_pos (List.getLast?_concat _), List.dropLast_concat]
  · have hdne : f.reverse.dropWhile (fun c => c == 48) ≠ [] := by
      intro hcon
      exact hempty (by simp [rstripZeros, hcon])
    have hstr : rstripZeros (sgn ++ ip ++ [46] ++ f) =
        sgn ++ ip ++ [46] ++ rstripZeros f := by
      unfold rstripZeros
      rw [hrev, List.dropWhile_append]
      rw [if_neg (by simpa [List.isEmpty_iff] using hdne)]
      simp [List.reverse_append, rstripZeros]
    rw [hstr, if_neg hempty]
    obtain ⟨c, hc⟩ : ∃ c, (rstripZeros f).getLast? = some c := by
      rcases hx : rstripZeros f with _ | ⟨x, xs⟩
      · exact absurd hx hempty
      · exact ⟨(x :: xs).getLast (by simp), List.getLast?_eq_getLast _ (by simp)⟩
    have hc46 : c ≠ 46 := by
      have hcm : c ∈ rstripZeros f := by
        obtain ⟨hne, heq⟩ := List.mem_getLast?_eq_getLast (l := rstripZeros f) (x := c)
          (by rw [hc]; rfl)
        rw [heq]
        exact List.getLast_mem hne
      have hcf : c ∈ f := rstrip_sublist c hcm
      have := decChar_range (hf c hcf)
      omega
    have hlast : (sgn ++ ip ++ [46] ++ rstripZeros f).getLast? = some c := by
      rw [List.getLast?_append_of_ne_nil _ hempty]
      exact hc
    rw [if_neg (by rw [hlast]; simp [hc46])]
    simp

lemma rstrip_frac5_nil_iff {fr : Nat} (h : fr < 100000) :
    rstripZeros (frac5 fr) = [] ↔ fr = 0 := by
  constructor
  · intro hnil
    have hall := rstrip_all48 hnil
    have := digitsVal_all48 hall
    rw [digitsVal_frac5 h] at this
    exact this
  · intro h0
    subst h0
    decide

lemma nts_rat_eq (v : ℚ) :
    number_to_string_rat v =
      (if v < 0 then [45] else []) ++ natRender 10 (rhe5 (|v| * 100000) / 100000) ++
      (if rhe5 (|v| * 100000) % 100000 = 0 then []
       else 46 :: rstripZeros (frac5 (rhe5 (|v| * 100000) % 100000))) := by
  unfold number_to_string_rat
  rw [trim_zeros_render _ _ _ (frac5_all_dec _)]
  have hlt : rhe5 (|v| * 100000) % 100000 < 100000 := by omega
  by_cases h0 : rhe5 (|v| * 100000) % 100000 = 0
  · rw [if_pos ((rstrip_frac5_nil_iff hlt).mpr h0), if_pos h0, List.append_nil]
  · rw [if_neg (fun hcon => h0 ((rstrip_frac5_nil_iff hlt).mp hcon)), if_neg h0]

lemma rhe5_spec (q : ℚ) :
    (rhe5 q = q.num.toNat / q.den ∧ 2 * (q.num.toNat % q.den) ≤ q.den) ∨
    (rhe5 q = q.num.toNat / q.den + 1 ∧ q.den ≤ 2 * (q.num.toNat % q.den)) := by
  unfold rhe5
  dsimp only
  split_ifs with h1 h2 h3 <;> [left; right; left; right] <;> exact ⟨rfl, by omega⟩

lemma rhe5_err {q : ℚ} (hq : 0 ≤ q) : |(rhe5 q : ℚ) - q| ≤ 1 / 2 := by
  have hdpos : 0 < q.den := q.pos
  have hd0 : (0 : ℚ) < (q.den : ℚ) := by exact_mod_cast hdpos
  have hq_eq : q = (q.num.toNat : ℚ) / (q.den : ℚ) := by
    have h := Int.toNat_of_nonneg (Rat.num_nonneg.mpr hq)
    rw [show ((q.num.toNat : ℚ)) = ((q.num : ℚ)) by
      exact_mod_cast congrArg (fun z : ℤ => (z : ℚ)) h]
    exact (Rat.num_div_den q).symm
  have hspec := rhe5_spec q
  have hrlt : (q.num.toNat % q.den) < q.den := Nat.mod_lt _ hdpos
  generalize hN : q.num.toNat = N at hq_eq hspec hrlt
  generalize hD : q.den = D at hd0 hq_eq hspec hrlt
  have hkey : (N : ℚ) = (D : ℚ) * ((N / D : Nat) : ℚ) + ((N % D : Nat) : ℚ) := by
    exact_mod_cast congrArg (fun m : Nat => (m : ℚ)) (Nat.div_add_mod N D).symm
  rcases hspec with ⟨heq, hle⟩ | ⟨heq, hle⟩
  · have hleQ : 2 * ((N % D : Nat) : ℚ) ≤ (D : ℚ) := by exact_mod_cast hle
    rw [heq, hq_eq]
    have hrw : ((N / D : Nat) : ℚ) - (N : ℚ) / (D : ℚ) =
        -(((N % D : Nat) : ℚ) / (D : ℚ)) := by
      field_simp
      linarith [hkey]
    rw [hrw, abs_neg, abs_of_nonneg (by positivity)]
    rw [div_le_iff₀ hd0]
    linarith
  · have hleQ : (D : ℚ) ≤ 2 * ((N % D : Nat) : ℚ) := by exact_mod_cast hle
    have hrltQ : ((N % D : Nat) : ℚ) < (D : ℚ) := by exact_mod_cast hrlt
    rw [heq, hq_eq]
    push_cast
    have hrw : ((N / D : Nat) : ℚ) + 1 - (N : ℚ) / (D : ℚ) =
        ((D : ℚ) - ((N % D : Nat) : ℚ)) / (D : ℚ) := by
      field_simp
      linarith [hkey]
    rw [hrw, abs_of_nonneg (by rw [le_div_iff₀ hd0]; linarith)]
    rw [div_le_iff₀ hd0]
    linarith

lemma foldl_zeros : ∀ (k : Nat) (acc : Nat),
    List.foldl (fun a c => a * 10 + charVal c) acc (List.replicate k 48) = acc * 10 ^ k
  | 0, acc => by simp
  | k + 1, acc => by
    rw [List.replicate_succ, List.foldl_cons, foldl_zeros k (acc * 10 + charVal 48)]
    show (acc * 10 + 0) * 10 ^ k = acc * 10 ^ (k + 1)
    ring

lemma digitsVal_append_zeros (xs : List Nat) (k : Nat) :
    digitsVal 10 (xs ++ List.replicate k 48) = digitsVal 10 xs * 10 ^ k := by
  unfold digitsVal
  rw [List.foldl_append, foldl_zeros]

lemma takeWhile_append_all {p : Nat → Bool} : ∀ {xs : List Nat} (ys : List Nat),
    (∀ x ∈ xs, p x = true) → (xs ++ ys).takeWhile p = xs ++ ys.takeWhile p
  | [], ys, _ => rfl
  | x :: xs, ys, h => by
    rw [List.cons_append, List.takeWhile_cons, h x (by simp)]
    simp only [if_true, List.cons_append, List.cons.injEq, true_and]
    exact takeWhile_append_all ys (fun a ha => h a (List.mem_cons_of_mem x ha))

lemma dropWhile_append_all {p : Nat → Bool} : ∀ {xs : List Nat} (ys : List Nat),
    (∀ x ∈ xs, p x = true) → (xs ++ ys).dropWhile p = ys.dropWhile p
  | [], ys, _ => rfl
  | x :: xs, ys, h => by
    rw [List.cons_append, List.dropWhile_cons, h x (by simp)]
    simp only [if_true]
    exact dropWhile_append_all ys (fun a ha => h a (List.mem_cons_of_mem x ha))

lemma splitSign_head {c : Nat} (cs : List Nat) (h45 : c ≠ 45) (h43 : c ≠ 43) :
    splitSign (c :: cs) = (false, c :: cs) := by
  simp [splitSign, h45, h43]

lemma frac5_length (n : Nat) : (frac5 n).length = 5 := rfl

lemma digitsVal_nil (b : Nat) : digitsVal b [] = 0 := rfl

lemma parseRat_mantissa (N : Nat) :
    parseRat (natRender 10 (N / 100000) ++
        (if N % 100000 = 0 then []
         else 46 :: rstripZeros (frac5 (N % 100000)))) =
      some ((N : ℚ) / 100000) := by
  have hipdec := natRender_all_dec (n := N / 100000)
  have hipne := natRender_ne_nil 10 (N / 100000)
  obtain ⟨dp, hdpval⟩ : ∃ dp, (if N % 100000 = 0 then ([] : List Nat)
      else 46 :: rstripZeros (frac5 (N % 100000))) = dp := ⟨_, rfl⟩
  rw [hdpval]
  rcases hip : natRender 10 (N / 100000) with _ | ⟨c, cs⟩
  · exact absurd hip hipne
  rw [← hip]
  have hcdec : isDecDigit c = true := hipdec c (by rw [hip]; simp)
  have hrange := decChar_range hcdec
  have hws : (natRender 10 (N / 100000) ++ dp).dropWhile isWsChar =
      natRender 10 (N / 100000) ++ dp := by
    rw [hip, List.cons_append, List.dropWhile_cons]
    rw [hexChar_not_ws (decDigit_isHex hcdec)]
    simp
  have hsg : splitSign (natRender 10 (N / 100000) ++ dp) =
      (false, natRender 10 (N / 100000) ++ dp) := by
    rw [hip, List.cons_append]
    exact splitSign_head _ (by omega) (by omega)
  have hdp_take : dp.takeWhile isDecDigit = [] := by
    rw [← hdpval]
    split
    · rfl
    · rw [List.takeWhile_cons]
      norm_num [isDecDigit]
  have hdp_drop : dp.dropWhile isDecDigit = dp := by
    rw [← hdpval]
    split
    · rfl
    · rw [List.dropWhile_cons]
      norm_num [isDecDigit]
  have htake : (natRender 10 (N / 100000) ++ dp).takeWhile isDecDigit =
      natRender 10 (N / 100000) := by
    rw [takeWhile_append_all _ hipdec, hdp_take, List.append_nil]
  have hdrop : (natRender 10 (N / 100000) ++ dp).dropWhile isDecDigit = dp := by
    rw [dropWhile_append_all _ hipdec, hdp_drop]
  simp only [parseRat, hws, hsg, htake, hdrop]
  rw [digitsVal_natRender (by norm_num) (by norm_num)]
  by_cases h0 : N % 100000 = 0
  · rw [if_pos h0] at hdpval
    subst hdpval
    rw [if_neg (by simp [hipne])]
    have hdvd : (100000 : Nat) ∣ N := Nat.dvd_of_mod_eq_zero h0
    have hcast : ((N / 100000 : Nat) : ℚ) = (N : ℚ) / 100000 := by
      rw [Nat.cast_div hdvd (by norm_num)]
      norm_num
    simp [digitsVal_nil, hcast]
  · rw [if_neg h0] at hdpval
    subst hdpval
    set fs := rstripZeros (frac5 (N % 100000)) with hfs
    have hfsdec : ∀ x ∈ fs, isDecDigit x = true := by
      intro x hx
      exact frac5_all_dec _ x (rstrip_sublist x hx)
    have hfs_take : fs.takeWhile isDecDigit = fs := takeWhile_of_all_pos hfsdec
    have hfs_drop : fs.dropWhile isDecDigit = [] := by
      rw [List.dropWhile_eq_nil_iff]
      intro x hx
      exact hfsdec x hx
    simp only [List.takeWhile_cons, List.dropWhile_cons,
      show isDecDigit 46 = false by decide, hfs_take, hfs_drop]
    rw [if_neg (by simp [hipne])]
    have hdecomp := rstrip_decomp (frac5 (N % 100000))
    rw [← hfs] at hdecomp
    have h5 : (frac5 (N % 100000)).length = 5 := frac5_length _
    have hlen : fs.length + ((frac5 (N % 100000)).length - fs.length) = 5 := by
      have hl := congrArg List.length hdecomp
      simp only [List.length_append, List.length_replicate] at hl
      omega
    have hfr_eq : digitsVal 10 fs * 10 ^ ((frac5 (N % 100000)).length - fs.length) =
        N % 100000 := by
      have hv := congrArg (digitsVal 10) hdecomp
      rw [digitsVal_frac5 (show N % 100000 < 100000 by omega), digitsVal_append_zeros] at hv
      exact hv.symm
    have hfrac_cast : (digitsVal 10 fs : ℚ) / (10 : ℚ) ^ fs.length =
        ((N % 100000 : Nat) : ℚ) / 100000 := by
      rw [div_eq_div_iff (by positivity) (by norm_num)]
      have hnat : digitsVal 10 fs * 100000 = (N % 100000) * 10 ^ fs.length := by
        calc digitsVal 10 fs * 100000
            = digitsVal 10 fs * (10 ^ ((frac5 (N % 100000)).length - fs.length) *
              10 ^ fs.length) := by
              rw [← pow_add,
                show (frac5 (N % 100000)).length - fs.length + fs.length = 5 by omega]
              norm_num
          _ = (N % 100000) * 10 ^ fs.length := by
              rw [← mul_assoc, hfr_eq]
      exact_mod_cast congrArg (fun m : Nat => (m : ℚ)) hnat
    have hNsplit : (N : ℚ) = 100000 * ((N / 100000 : Nat) : ℚ) +
        ((N % 100000 : Nat) : ℚ) := by
      exact_mod_cast congrArg (fun m : Nat => (m : ℚ)) (Nat.div_add_mod N 100000).symm
    simp only [hfrac_cast, Bool.false_eq_true, if_false]
    congr 1
    rw [hNsplit]
    ring

lemma parseRat_mantissa_neg (N : Nat) :
    parseRat (45 :: (natRender 10 (N / 100000) ++
        (if N % 100000 = 0 then []
         else 46 :: rstripZeros (frac5 (N % 100000))))) =
      some (-((N : ℚ) / 100000)) := by
  have hipdec := natRender_all_dec (n := N / 100000)
  have hipne := natRender_ne_nil 10 (N / 100000)
  obtain ⟨dp, hdpval⟩ : ∃ dp, (if N % 100000 = 0 then ([] : List Nat)
      else 46 :: rstripZeros (frac5 (N % 100000))) = dp := ⟨_, rfl⟩
  rw [hdpval]
  have hws : (45 :: (natRender 10 (N / 100000) ++ dp)).dropWhile isWsChar =
      45 :: (natRender 10 (N / 100000) ++ dp) := by
    rw [List.dropWhile_cons]
    norm_num [isWsChar]
  have hsg : splitSign (45 :: (natRender 10 (N / 100000) ++ dp)) =
      (true, natRender 10 (N / 100000) ++ dp) := by
    simp [splitSign]
  have hdp_take : dp.takeWhile isDecDigit = [] := by
    rw [← hdpval]
    split
    · rfl
    · rw [List.takeWhile_cons]
      norm_num [isDecDigit]
  have hdp_drop : dp.dropWhile isDecDigit = dp := by
    rw [← hdpval]
    split
    · rfl
    · rw [List.dropWhile_cons]
      norm_num [isDecDigit]
  have htake : (natRender 10 (N / 100000) ++ dp).takeWhile isDecDigit =
      natRender 10 (N / 100000) := by
    rw [takeWhile_append_all _ hipdec, hdp_take, List.append_nil]
  have hdrop : (natRender 10 (N / 100000) ++ dp).dropWhile isDecDigit = dp := by
    rw [dropWhile_append_all _ hipdec, hdp_drop]
  simp only [parseRat, hws, hsg, htake, hdrop]
  rw [digitsVal_natRender (by norm_num) (by norm_num)]
  by_cases h0 : N % 100000 = 0
  · rw [if_pos h0] at hdpval
    subst hdpval
    rw [if_neg (by simp [hipne])]
    have hdvd : (100000 : Nat) ∣ N := Nat.dvd_of_mod_eq_zero h0
    have hcast : ((N / 100000 : Nat) : ℚ) = (N : ℚ) / 100000 := by
      rw [Nat.cast_div hdvd (by norm_num)]
      norm_num
    simp [digitsVal_nil, hcast]
  · rw [if_neg h0] at hdpval
    subst hdpval
    set fs := rstripZeros (frac5 (N % 100000)) with hfs
    have hfsdec : ∀ x ∈ fs, isDecDigit x = true := by
      intro x hx
      exact frac5_all_dec _ x (rstrip_sublist x hx)
    have hfs_take : fs.takeWhile isDecDigit = fs := takeWhile_of_all_pos hfsdec
    have hfs_drop : fs.dropWhile isDecDigit = [] := by
      rw [List.dropWhile_eq_nil_iff]
      intro x hx
      exact hfsdec x hx
    simp only [List.takeWhile_cons, List.dropWhile_cons,
      show isDecDigit 46 = false by decide, hfs_take, hfs_drop]
    rw [if_neg (by simp [hipne])]
    have hdecomp := rstrip_decomp (frac5 (N % 100000))
    rw [← hfs] at hdecomp
    have h5 : (frac5 (N % 100000)).length = 5 := frac5_length _
    have hlen : fs.length + ((frac5 (N % 100000)).length - fs.length) = 5 := by
      have hl := congrArg List.length hdecomp
      simp only [List.length_append, List.length_replicate] at hl
      omega
    have hfr_eq : digitsVal 10 fs * 10 ^ ((frac5 (N % 100000)).length - fs.length) =
        N % 100000 := by
      have hv := congrArg (digitsVal 10) hdecomp
      rw [digitsVal_frac5 (show N % 100000 < 100000 by omega), digitsVal_append_zeros] at hv
      exact hv.symm
    have hfrac_cast : (digitsVal 10 fs : ℚ) / (10 : ℚ) ^ fs.length =
        ((N % 100000 : Nat) : ℚ) / 100000 := by
      rw [div_eq_div_iff (by positivity) (by norm_num)]
      have hnat : digitsVal 10 fs * 100000 = (N % 100000) * 10 ^ fs.length := by
        calc digitsVal 10 fs * 100000
            = digitsVal 10 fs * (10 ^ ((frac5 (N % 100000)).length - fs.length) *
              10 ^ fs.length) := by
              rw [← pow_add,
                show (frac5 (N % 100000)).length - fs.length + fs.length = 5 by omega]
              norm_num
          _ = (N % 100000) * 10 ^ fs.length := by
              rw [← mul_assoc, hfr_eq]
      exact_mod_cast congrArg (fun m : Nat => (m : ℚ)) hnat
    have hNsplit : (N : ℚ) = 100000 * ((N / 100000 : Nat) : ℚ) +
        ((N % 100000 : Nat) : ℚ) := by
      exact_mod_cast congrArg (fun m : Nat => (m : ℚ)) (Nat.div_add_mod N 100000).symm
    simp only [hfrac_cast, if_true]
    congr 1
    rw [hNsplit]
    ring

lemma string_to_number_rat_render (v : ℚ) (d : ℚ) :
    string_to_number_rat (number_to_string_rat v) d =
      if v < 0 then -((rhe5 (|v| * 100000) : ℚ) / 100000)
      else (rhe5 (|v| * 100000) : ℚ) / 100000 := by
  unfold string_to_number_rat
  rw [nts_rat_eq]
  by_cases hv : v < 0
  · rw [if_pos hv, if_pos hv]
    have hshape : ([45] ++ natRender 10 (rhe5 (|v| * 100000) / 100000) ++
        (if rhe5 (|v| * 100000) % 100000 = 0 then []
         else 46 :: rstripZeros (frac5 (rhe5 (|v| * 100000) % 100000)))) =
        45 :: (natRender 10 (rhe5 (|v| * 100000) / 100000) ++
        (if rhe5 (|v| * 100000) % 100000 = 0 then []
         else 46 :: rstripZeros (frac5 (rhe5 (|v| * 100000) % 100000)))) := by
      simp
    rw [hshape, parseRat_mantissa_neg]
  · rw [if_neg hv, if_neg hv]
    have hshape : (([] : List Nat) ++ natRender 10 (rhe5 (|v| * 100000) / 100000) ++
        (if rhe5 (|v| * 100000) % 100000 = 0 then []
         else 46 :: rstripZeros (frac5 (rhe5 (|v| * 100000) % 100000)))) =
        natRender 10 (rhe5 (|v| * 100000) / 100000) ++
        (if rhe5 (|v| * 100000) % 100000 = 0 then []
         else 46 :: rstripZeros (frac5 (rhe5 (|v| * 100000) % 100000))) := by
      simp
    rw [hshape, parseRat_mantissa]

lemma roundtrip_rat_err (v : ℚ) (d : ℚ) :
    |string_to_number_rat (number_to_string_rat v) d - v| ≤ 1 / 200000 := by
  rw [string_to_number_rat_render]
  set A := |v| with hA
  have herr : |(rhe5 (A * 100000) : ℚ) - A * 100000| ≤ 1 / 2 :=
    rhe5_err (show (0 : ℚ) ≤ A * 100000 by rw [hA]; positivity)
  have hkey : ∀ w : ℚ, |w * 100000 - A * 100000| ≤ 1 / 2 → |w - A| ≤ 1 / 200000 := by
    intro w h
    have heq : |w - A| = |w * 100000 - A * 100000| / 100000 := by
      rw [show w * 100000 - A * 100000 = (w - A) * 100000 by ring, abs_mul]
      norm_num
    rw [heq]
    linarith [h]
  have hmain : |(rhe5 (A * 100000) : ℚ) / 100000 - A| ≤ 1 / 200000 := by
    apply hkey
    calc |(rhe5 (A * 100000) : ℚ) / 100000 * 100000 - A * 100000|
        = |(rhe5 (A * 100000) : ℚ) - A * 100000| := by
          congr 1
          ring
      _ ≤ 1 / 2 := herr
  by_cases hv : v < 0
  · rw [if_pos hv]
    have habsv : A = -v := by rw [hA]; exact abs_of_neg hv
    have hflip : -((rhe5 (A * 100000) : ℚ) / 100000) - v =
        -(((rhe5 (A * 100000) : ℚ) / 100000) - A) := by
      rw [habsv]; ring
    rw [hflip, abs_neg]
    exact hmain
  · rw [if_neg hv]
    have habsv : A = v := by rw [hA]; exact abs_of_nonneg (by linarith [not_lt.mp hv])
    rw [← habsv]
    exact hmain

lemma roundtrip_int (v : Int) (h1 : -(2 ^ 31) ≤ v) (h2 : v ≤ 2 ^ 31 - 1) (d : Int) :
    string_to_number_int (number_to_string_int v) d = v := by
  unfold string_to_number_int
  rw [number_to_string_int_eq, parseInt32_render v h1 h2]

lemma rhe5_natCast (m : Nat) : rhe5 ((m : Nat) : ℚ) = m := by
  unfold rhe5
  simp [Rat.num_natCast, Rat.den_natCast, Nat.mod_one, Nat.div_one]

/-! ## Claims -/

/-- C1: Base64 round-trip: for every byte sequence b, including the
empty sequence, decoding the encoding gives back b exactly:
b64_d(b64(b)) == b. -/
theorem c1_b64_roundtrip (bs : List Nat) (h : ∀ x ∈ bs, x < 256) : b64_d (b64 bs) = bs := by
  unfold b64 b64_d
  apply b64_round_aux bs h 0 0
  cases hn : (4 - (b64Go bs 0 (-6)).length % 4) % 4 with
  | zero => left; rfl
  | succ m => right; exact ⟨List.replicate m 61, List.replicate_succ 61 m⟩

theorem c1_b64_roundtrip_witness :
    (∀ x ∈ [104, 105], x < 256) ∧ b64_d (b64 [104, 105]) = [104, 105] :=
  ⟨by decide, c1_b64_roundtrip [104, 105] (by decide)⟩

/-- C2: Object read error contract: read_obj fails with NotFound when
the stored string is empty; otherwise, if the byte length of the
base64-decoded string does not equal the expected record size, it fails
with SizeMismatch; only when the decoded length equals the size does it
return the decoded record — never a truncated, garbage, or silently
defaulted success. -/
theorem c2_read_obj_contract (s : List Nat) (size : Nat) :
    (s = [] → read_obj_decode s size = .error .NotFound) ∧
    (s ≠ [] → (b64_d s).length ≠ size → read_obj_decode s size = .error .SizeMismatch) ∧
    (s ≠ [] → (b64_d s).length = size → read_obj_decode s size = .ok (b64_d s)) ∧
    (∀ (st : RegState) (key : List Nat),
      read_obj st key size = read_obj_decode (read_string st key []) size) := by
  refine ⟨fun h0 => ?_, fun hne hlen => ?_, fun hne hlen => ?_, fun st key => rfl⟩
  · rw [read_obj_decode, if_pos h0]
  · rw [read_obj_decode, if_neg hne, if_pos hlen]
  · rw [read_obj_decode, if_neg hne, if_neg (by omega)]

theorem c2_read_obj_contract_witness :
    read_obj ⟨true, [([107], [65, 65, 65, 65])]⟩ [107] 5 = .error .SizeMismatch ∧
    read_obj ⟨true, [([107], [65, 65, 65, 65])]⟩ [107] 3 = .ok [0, 0, 0] := by
  have h5 := c2_read_obj_contract (read_string ⟨true, [([107], [65, 65, 65, 65])]⟩ [107] []) 5
  have h3 := c2_read_obj_contract (read_string ⟨true, [([107], [65, 65, 65, 65])]⟩ [107] []) 3
  constructor
  · rw [h5.2.2.2 _ [107]]
    exact h5.2.1 (by decide) (by decide)
  · rw [h3.2.2.2 _ [107]]
    rw [h3.2.2.1 (by decide) (by decide)]
    rfl

/-- C3: Pointer token decode returns the caller-supplied default in
exactly these failure cases: the underscore separator is absent, the
hex-address segment fails to parse, the decimal process-id segment
fails to parse, or the stored process id differs from the current
process id; only on a full match does it return the stored address. -/
theorem c3_read_pointer_cases (s : List Nat) (cur dflt : Nat) :
    (List.findIdx? (fun c => c == 95) s = none → read_pointer_s s cur dflt = dflt) ∧
    (∀ i, List.findIdx? (fun c => c == 95) s = some i →
      (parseHex64 (s.take i) = none → read_pointer_s s cur dflt = dflt) ∧
      (parseDec32 (s.drop (i + 1)) = none → read_pointer_s s cur dflt = dflt) ∧
      (∀ p pid, parseHex64 (s.take i) = some p → parseDec32 (s.drop (i + 1)) = some pid →
        (pid ≠ cur → read_pointer_s s cur dflt = dflt) ∧
        (pid = cur → read_pointer_s s cur dflt = p))) := by
  by_cases hnil : s = []
  · subst hnil
    exact ⟨fun _ => rfl, fun i hi => by simp [List.findIdx?] at hi⟩
  · constructor
    · intro hn
      simp only [read_pointer_s, if_neg hnil, hn]
    · intro i hi
      refine ⟨fun hhex => ?_, fun hdec => ?_, fun p pid hp hpid => ⟨fun hne => ?_, fun heq => ?_⟩⟩
      · simp only [read_pointer_s, if_neg hnil, hi, hhex]
      · cases hhex : parseHex64 (s.take i) <;>
          simp only [read_pointer_s, if_neg hnil, hi, hhex, hdec]
      · simp only [read_pointer_s, if_neg hnil, hi, hp, hpid]
        rw [if_pos (Ne.symm hne)]
      · simp only [read_pointer_s, if_neg hnil, hi, hp, hpid]
        rw [if_neg (show ¬(cur ≠ pid) from fun hc => hc heq.symm)]

theorem c3_read_pointer_cases_witness :
    read_pointer_s [102, 102, 95, 55] 7 0 = 255 ∧
    read_pointer_s [102, 102, 95, 55] 8 0 = 0 := by
  constructor
  · exact (((c3_read_pointer_cases [102, 102, 95, 55] 7 0).2 2 (by decide)).2.2
      255 7 (by decide) (by decide)).2 rfl
  · exact (((c3_read_pointer_cases [102, 102, 95, 55] 8 0).2 2 (by decide)).2.2
      255 7 (by decide) (by decide)).1 (by decide)

/-- C4: Numeric parse fallback: string_to_number returns the supplied
default whenever stream extraction fails, and extraction does fail on
an empty string, on non-numeric content, and on overflow; the function
is total (never crashes or throws). -/
theorem c4_string_to_number_fallback :
    (∀ (s : List Nat) (d : Int), string_to_number_int s d = (parseInt32 s).getD d) ∧
    parseInt32 [] = none ∧
    parseInt32 [97, 98, 99] = none ∧
    parseInt32 [50, 49, 52, 55, 52, 56, 51, 54, 52, 56] = none := by
  refine ⟨fun s d => ?_, by decide, by decide, by decide⟩
  cases h : parseInt32 s <;> simp [string_to_number_int, h]

/-- C5: Numeric formatting: integral values render as their plain
decimal digits with no fractional part; fractional values render in
fixed-point notation with exactly 5 digits after the decimal point
(`rhe5` rounding), with the trailing zero digits trimmed and the
decimal point itself trimmed when all five fractional digits were zero;
in particular toString(123) = "123", toString(3.14159) = "3.14159",
toString(99.99) = "99.99". -/
theorem c5_number_formatting :
    (∀ n : Int, number_to_string_int n = (if n < 0 then [45] else []) ++ natRender 10 n.natAbs) ∧
    (∀ v : ℚ, number_to_string_rat v =
      (if v < 0 then [45] else []) ++ natRender 10 (rhe5 (|v| * 100000) / 100000) ++
      (if rhe5 (|v| * 100000) % 100000 = 0 then []
       else 46 :: rstripZeros (frac5 (rhe5 (|v| * 100000) % 100000)))) ∧
    number_to_string_int 123 = [49, 50, 51] ∧
    number_to_string_rat (314159 / 100000) = [51, 46, 49, 52, 49, 53, 57] ∧
    number_to_string_rat (9999 / 100) = [57, 57, 46, 57, 57] := by
  have hex1 : number_to_string_rat (314159 / 100000) = [51, 46, 49, 52, 49, 53, 57] := by
    rw [nts_rat_eq]
    have habs : |(314159 / 100000 : ℚ)| * 100000 = ((314159 : Nat) : ℚ) := by
      rw [abs_of_pos (by norm_num)]
      norm_num
    rw [habs, rhe5_natCast, if_neg (by norm_num)]
    decide
  have hex2 : number_to_string_rat (9999 / 100) = [57, 57, 46, 57, 57] := by
    rw [nts_rat_eq]
    have habs : |(9999 / 100 : ℚ)| * 100000 = ((9999000 : Nat) : ℚ) := by
      rw [abs_of_pos (by norm_num)]
      norm_num
    rw [habs, rhe5_natCast, if_neg (by norm_num)]
    decide
  exact ⟨number_to_string_int_eq, nts_rat_eq, by decide, hex1, hex2⟩

/-- C6: Numeric round-trip: for every 32-bit integer value,
fromString(toString(v), d) returns v exactly for any default d; for the
exact-rational model of float/double values the round-trip differs from
v by at most half of the fifth fractional digit (1/200000), the
documented 5-digit precision loss. -/
theorem c6_numeric_roundtrip :
    (∀ v : Int, -(2 ^ 31) ≤ v → v ≤ 2 ^ 31 - 1 → ∀ d : Int,
      string_to_number_int (number_to_string_int v) d = v) ∧
    (∀ (v d : ℚ), |string_to_number_rat (number_to_string_rat v) d - v| ≤ 1 / 200000) :=
  ⟨fun v h1 h2 d => roundtrip_int v h1 h2 d, fun v d => roundtrip_rat_err v d⟩

theorem c6_numeric_roundtrip_witness :
    (-(2 ^ 31) ≤ (123 : Int)) ∧ ((123 : Int) ≤ 2 ^ 31 - 1) ∧
    string_to_number_int (number_to_string_int 123) 0 = 123 :=
  ⟨by decide, by decide, c6_numeric_roundtrip.1 123 (by decide) (by decide) 0⟩

/-- C7: Pointer token same-process round-trip: encoding an address A
under process id P as the hex-address, underscore, decimal-pid token
and decoding that token with current process id P returns A. -/
theorem c7_pointer_roundtrip (A P dflt : Nat) (hA : A < 2 ^ 64) (hP : P < 2 ^ 32) :
    read_pointer_s (pointer_token A P) P dflt = A :=
  token_roundtrip A P dflt hA hP

theorem c7_pointer_roundtrip_witness :
    255 < 2 ^ 64 ∧ 7 < 2 ^ 32 ∧ read_pointer_s (pointer_token 255 7) 7 0 = 255 :=
  ⟨by decide, by decide, c7_pointer_roundtrip 255 7 0 (by decide) (by decide)⟩

/-- C8: Base64 decode leniency: b64_d depends only on the longest
alphabet-character run at the start of the input — it stops at the
first character not in the 64-character alphabet and returns exactly
the bytes accumulated from that valid run; it is a total function
(never raises), and on the adversarial input "AB@@" it returns the
single byte decodable from the valid "AB" run. -/
theorem c8_b64_decode_leniency :
    (∀ s : List Nat, b64_d s = b64_d (s.takeWhile (fun c => !(b64T c == -1)))) ∧
    b64_d [65, 66, 64, 64] = [0] :=
  ⟨fun s => b64_d_go_takeWhile s 0 (-8), by decide⟩

/-- C9 (amended): write_string, write_number and write_pointer never
throw and report success or failure through their boolean result
(false exactly on a closed key, and additionally on a null pointer for
write_pointer); write_obj never throws but returns void — it delegates
to write_string and discards its boolean result, so a failed write is
not reported to the caller. -/
theorem c9_write_reporting :
    (∀ (st : RegState) (n v : List Nat), (write_string st n v).1 = st.is_open) ∧
    (∀ (st : RegState) (n : List Nat) (v : Int), (write_number_int st n v).1 = st.is_open) ∧
    (∀ (st : RegState) (n : List Nat) (p pid : Nat),
      (write_pointer st n p pid).1 = (st.is_open && !(p == 0))) ∧
    (∀ (st : RegState) (n b : List Nat), write_obj st n b = (write_string st n (b64 b)).2) := by
  refine ⟨fun st n v => ?_, fun st n v => ?_, fun st n p pid => ?_, fun st n b => rfl⟩
  · cases h : st.is_open <;> simp [write_string, h]
  · cases h : st.is_open <;> simp [write_number_int, write_string, h]
  · cases h : st.is_open <;> by_cases hp : p = 0 <;>
      simp [write_pointer, write_string, h, hp]

theorem c9_write_reporting_counterexample :
    write_obj ⟨false, []⟩ [120] [1, 2, 3] = ⟨false, []⟩ ∧
    (write_string ⟨false, []⟩ [120] (b64 [1, 2, 3])).1 = false :=
  ⟨rfl, rfl⟩

/-- C10: A stored raw value that is the empty string is
indistinguishable from an absent value at the typed-read interface:
read_number returns the supplied default, read_pointer returns the
supplied default, and read_obj fails with NotFound — even though
value_exists is true for that name. -/
theorem c10_empty_value_as_absent (st : RegState) (name : List Nat)
    (hopen : st.is_open = true) (hstored : lookupVal st.vals name = some []) :
    value_exists st name = true ∧
    (∀ d : Int, read_number_int st name d = d) ∧
    (∀ cur dflt : Nat, read_pointer st name cur dflt = dflt) ∧
    (∀ size : Nat, read_obj st name size = .error .NotFound) := by
  have hexists : value_exists st name = true := by
    simp [value_exists, hopen, hstored]
  have hread : read_string st name [] = [] := by
    simp [read_string, hopen, hexists, hstored]
  refine ⟨hexists, fun d => ?_, fun cur dflt => ?_, fun size => ?_⟩
  · simp [read_number_int, hread]
  · simp [read_pointer, hread, read_pointer_s]
  · simp [read_obj, hread, read_obj_decode]

theorem c10_empty_value_as_absent_witness :
    value_exists ⟨true, [([97], [])]⟩ [97] = true ∧
    read_number_int ⟨true, [([97], [])]⟩ [97] 5 = 5 ∧
    read_pointer ⟨true, [([97], [])]⟩ [97] 1 9 = 9 ∧
    read_obj ⟨true, [([97], [])]⟩ [97] 3 = .error .NotFound := by
  obtain ⟨h1, h2, h3, h4⟩ := c10_empty_value_as_absent ⟨true, [([97], [])]⟩ [97] rfl (by decide)
  exact ⟨h1, h2 5, h3 1 9, h4 3⟩
